import Mathlib

/-!
Verification of the real-time scheduling analysis engine (RTTask / RTSystem /
AppTools from `models/RealTime.ts`, the current of the two near-duplicate
variants in the repository).

All task parameters are parsed from the pattern `(<int>,<int>,<int>)`, so
`executionTime`, `period` and `expire` are natural numbers (`math.round` at a
fixed decimal precision is the identity on integers).  Response-time values can
become the sentinel `-1`, so the solver works over `ℤ`; utilizations and slack
quantities involve genuine division and are modelled over `ℚ`; the Liu bound
uses `2^(1/n)` and is modelled over `ℝ`.
-/

namespace RTSpec

/-- One periodic task, as built by `RTTask`'s constructor from the three parsed
integer fields (`C` execution time, `T` period, `D` deadline).  `id` is the
1-based parse order. -/
structure RTTask where
  id : ℕ
  executionTime : ℕ
  period : ℕ
  expire : ℕ
deriving DecidableEq

/-- `Constants.defaultDecimals`.  Modelled from the spec: the constants file is
not part of the analysed sources; the spec only says values are rounded to "a
fixed decimal precision".  We take 2, matching the explicit 2-decimal rounding
`getLiu` and `getBini` use. -/
def defaultDecimals : ℕ := 2

/-- `math.round(x, d)`: round to `d` decimal places, half away from zero.
All rounded quantities in this development are nonnegative, where this is
`⌊x * 10^d + 1/2⌋ / 10^d`. -/
def roundP (d : ℕ) (x : ℚ) : ℚ := (⌊x * 10 ^ d + 1 / 2⌋ : ℚ) / 10 ^ d

/-- The derived `fu` field of `RTTask`:
`math.round(period > 0 ? executionTime / period : 0, defaultDecimals)`. -/
def RTTask.fu (t : RTTask) : ℚ :=
  roundP defaultDecimals
    (if 0 < t.period then (t.executionTime : ℚ) / (t.period : ℚ) else 0)

/-- `RTSystem.getFU()`: the sum of all tasks' (already rounded) `fu` values,
rounded again to the fixed precision. -/
def getFU (ts : List RTTask) : ℚ :=
  roundP defaultDecimals (ts.map RTTask.fu).sum

/-- `RTSystem.getN()`: the task count. -/
def getN (ts : List RTTask) : ℕ := ts.length

/-- Ceiling division `⌈a / b⌉` on integers, for `b > 0`
(`math.ceil(a / b)` in the source, where the quotient is exact). -/
def ceilD (a b : ℤ) : ℤ := -(Int.fdiv (-a) b)

/-- The interference sum `Σ_j ceil(t / T_j) * C_j` over a task list, the loop
body shared by `getTaskResponse` and `getFirstFreeSlot`. -/
def interference (ts : List RTTask) (t : ℤ) : ℤ :=
  (ts.map (fun lt => ceilD t (lt.period : ℤ) * (lt.executionTime : ℤ))).sum

/-- The do/while loop of `RTSystem.getTaskResponse`: from the current `seed`
and the number `count` of iterations already performed, compute
`iteration = C + Σ_{j<i} ceil(seed / T_j) * C_j`, stop when it equals the seed
or when no further iteration is allowed, and return the final
`(iteration, iterationCount)` pair.  `rem` is the number of loop iterations
the cap still allows after the current one (`rem = 50 - count'`), so the
source's continuation test `iterationCount < 50` is `0 < rem` here. -/
def rtIterGo (hp : List RTTask) (c : ℤ) (seed : ℤ) (count : ℕ) (rem : ℕ) : ℤ × ℕ :=
  let iteration := c + interference hp seed
  let count' := count + 1
  if iteration = seed then (iteration, count')
  else
    match rem with
    | 0 => (iteration, count')
    | r + 1 => rtIterGo hp c iteration count' r

/-- The do/while loop of `RTSystem.getTaskResponse`, entered with
`iterationCount = 0` and at most 50 iterations in total. -/
def rtIter (hp : List RTTask) (c : ℤ) (seed : ℤ) : ℤ × ℕ :=
  rtIterGo hp c seed 0 49

/-- `RTSystem.getTaskResponse(task, previousTaskTime, iterationIndex)`:
seeds the iteration at `previousTaskTime + executionTime`, restricts the
interference to the tasks before `iterationIndex % tasks.length`, and returns
the reached value when the loop finished in fewer than 50 iterations, the
sentinel `-1` otherwise. -/
def getTaskResponse (ts : List RTTask) (task : RTTask) (previousTaskTime : ℤ)
    (iterationIndex : ℕ) : ℤ :=
  let taskIndex := iterationIndex % ts.length
  let p := rtIter (ts.take taskIndex) (task.executionTime : ℤ)
    (previousTaskTime + (task.executionTime : ℤ))
  if p.2 < 50 then p.1 else -1

/-- The `for (t = 1; ...)` loop of `RTSystem.getTaskTiming`: the remaining
tasks `ts.drop t` are walked one by one while `t` tracks the index of the
task at the head, each computed response being chained into the next call. -/
def getTaskTimingGo (ts : List RTTask) (prev : ℤ) (t : ℕ) :
    List RTTask → List ℤ
  | [] => []
  | task :: rest =>
    let r := getTaskResponse ts task prev t
    r :: getTaskTimingGo ts r (t + 1) rest

/-- `RTSystem.getTaskTiming()`: empty for an empty system; otherwise the first
task's execution time followed by the chained `getTaskResponse` results. -/
def getTaskTiming (ts : List RTTask) : List ℤ :=
  match ts with
  | [] => []
  | t0 :: rest =>
    (t0.executionTime : ℤ) :: getTaskTimingGo ts (t0.executionTime : ℤ) 1 rest

/-- The fixed-point do/while loop shared by `getFirstFreeSlot` (and, in spirit,
`getTaskTiming`): repeatedly replace the current value by `f` of it until the
two agree, returning the agreed value.  The loop has no iteration cap in the
source; `fuel` bounds the modelled number of body executions, `none` standing
for a run that has not terminated within it. -/
def iterFix (f : ℤ → ℤ) : ℤ → ℕ → Option ℤ
  | _, 0 => none
  | cur, n + 1 =>
    let next := f cur
    if next = cur then some cur else iterFix f next n

/-- The body of `getFirstFreeSlot`'s recurrence:
`1 + Σ_j ceil(m / T_j) * C_j`, summed over every task of the system. -/
def ffsStep (ts : List RTTask) (m : ℤ) : ℤ := 1 + interference ts m

/-- The seed `getFirstFreeSlot` actually uses: `1 + _.last(getTaskTiming())`
(`none` for an empty system, where `_.last` yields `undefined` and the loop
never terminates). -/
def ffsSeed (ts : List RTTask) : Option ℤ :=
  (getTaskTiming ts).getLast?.map (fun l => 1 + l)

/-- Following the spec's words (claim C6), for comparison with `ffsSeed`:
the iteration "seeded at `1 + max(responseTimes())`". -/
def ffsSeedSpec (ts : List RTTask) : Option ℤ :=
  (getTaskTiming ts).max?.map (fun l => 1 + l)

/-- `RTSystem.getFirstFreeSlot()`: iterate `ffsStep` to a fixed point from the
seed `1 + _.last(getTaskTiming())`. -/
def getFirstFreeSlot (ts : List RTTask) (fuel : ℕ) : Option ℤ :=
  match (getTaskTiming ts).getLast? with
  | none => none
  | some l => iterFix (ffsStep ts) (1 + l) fuel

/-- `RTSystem.getHyperperiod()`: `math.lcm` over all periods. -/
def getHyperperiod (ts : List RTTask) : ℕ :=
  match ts.map RTTask.period with
  | [] => 0
  | p :: r => r.foldl Nat.lcm p

end RTSpec

namespace RTSpec

noncomputable section LiuBound

/-- `math.round(x, d)` on a real argument (used for the Liu bound, whose
`2^(1/n)` factor is irrational): round to `d` decimals, half away from zero;
all arguments used here are nonnegative. -/
def roundR (d : ℕ) (x : ℝ) : ℝ := (⌊x * 10 ^ d + 1 / 2⌋ : ℤ) / 10 ^ d

/-- Following the spec's words (claim C5), for comparison with `getLiu`:
the exact Liu and Layland bound `n * (2^(1/n) - 1)`. -/
def liuExact (n : ℕ) : ℝ := (n : ℝ) * ((2 : ℝ) ^ ((1 : ℝ) / (n : ℝ)) - 1)

/-- `RTSystem.getLiu()`: `math.round(n * (math.pow(2, 1/n) - 1), 2)`. -/
def getLiu (ts : List RTTask) : ℝ := roundR 2 (liuExact (getN ts))

/-- `RTSystem.isValidForLiu()`: `getFU() <= getLiu()`. -/
def isValidForLiu (ts : List RTTask) : Prop := ((getFU ts : ℚ) : ℝ) ≤ getLiu ts

end LiuBound

/-! ### Task-system parser (`AppTools`) -/

/-- Numeric value of a digit group captured by the regex (`parseFloat` on a
string of decimal digits). -/
def digitsToNat (l : List Char) : ℕ :=
  l.foldl (fun a c => 10 * a + (c.toNat - '0'.toNat)) 0

/-- Attempt to read `(<digits>,<digits>,<digits>)` starting exactly at the head
of the character list, the anchored step of the regex
`/\((\d+),(\d+),(\d+)\)/`.  The digit groups are greedy; since `,` and `)` are
not digits, no backtracking arises. -/
def tripleHere (l : List Char) : Option (ℕ × ℕ × ℕ) :=
  match l with
  | '(' :: r =>
    let p1 := r.span Char.isDigit
    match p1.1, p1.2 with
    | [], _ => none
    | d1, ',' :: r2 =>
      let p2 := r2.span Char.isDigit
      match p2.1, p2.2 with
      | [], _ => none
      | d2, ',' :: r4 =>
        let p3 := r4.span Char.isDigit
        match p3.1, p3.2 with
        | [], _ => none
        | d3, ')' :: _ => some (digitsToNat d1, digitsToNat d2, digitsToNat d3)
        | _, _ => none
      | _, _ => none
    | _, _ => none
  | _ => none

/-- `exec` of the (unanchored) regex `/\((\d+),(\d+),(\d+)\)/`: the leftmost
position where the anchored pattern matches, if any. -/
def execTriple : List Char → Option (ℕ × ℕ × ℕ)
  | [] => none
  | c :: r =>
    match tripleHere (c :: r) with
    | some v => some v
    | none => execTriple r

/-- `AppTools.parseTask(id, task)`: on a regex match, the corresponding task
(`math.round` at fixed precision is the identity on these integers); on no
match the JS code dereferences `null` and throws, modelled as `none`. -/
def parseTask (id : ℕ) (task : List Char) : Option RTTask :=
  (execTriple task).map (fun v => ⟨id, v.1, v.2.1, v.2.2⟩)

/-- The character scan of `AppTools.parseSystemTasks`.  `depth` is the length
of `charStack` (the stack only ever holds `'('`; popping an empty stack is a
no-op, hence the truncated `ℕ` subtraction); `cur` is `currentTask`; a comma at
depth 0 parses the accumulated chunk eagerly, any parse failure aborting the
whole construction (`none`). -/
def parseAux : List Char → ℕ → List Char → List RTTask → ℕ → Option (List RTTask)
  | [], depth, cur, acc, nid =>
    if 0 < depth then none
    else if cur.length > 0 then (parseTask nid cur).map (fun t => acc ++ [t])
    else some acc
  | c :: r, depth, cur, acc, nid =>
    if c = ' ' then parseAux r depth cur acc nid
    else if c = '(' then parseAux r (depth + 1) (cur ++ [c]) acc nid
    else if c = ')' then parseAux r (depth - 1) (cur ++ [c]) acc nid
    else if c = ',' then
      if 0 < depth then parseAux r depth (cur ++ [c]) acc nid
      else
        match parseTask nid cur with
        | none => none
        | some t => parseAux r depth [] (acc ++ [t]) (nid + 1)
    else parseAux r depth (cur ++ [c]) acc nid

/-- `AppTools.parseSystemTasks(system)`: scan the whole text; `none` models a
thrown error (no partial system escapes). -/
def parseSystemTasks (s : String) : Option (List RTTask) :=
  parseAux s.toList 0 [] [] 1

/-- The parenthesis depth left after scanning the whole input, counting `'('`
and `')'` exactly as `parseSystemTasks`'s stack does (truncated subtraction =
pop on an empty stack is a no-op). -/
def finalDepth (s : String) : ℕ :=
  s.toList.foldl (fun d c => if c = '(' then d + 1 else if c = ')' then d - 1 else d) 0

/-- The depth-0 chunks the parser's scan accumulates: the same character walk
as `parseAux`, but collecting the chunk handed to `parseTask` at each depth-0
comma, and the trailing chunk (when nonempty) at end of input, instead of
parsing them. -/
def scanChunks : List Char → ℕ → List Char → List (List Char) → List (List Char)
  | [], _depth, cur, accC => if cur.length > 0 then accC ++ [cur] else accC
  | c :: r, depth, cur, accC =>
    if c = ' ' then scanChunks r depth cur accC
    else if c = '(' then scanChunks r (depth + 1) (cur ++ [c]) accC
    else if c = ')' then scanChunks r (depth - 1) (cur ++ [c]) accC
    else if c = ',' then
      if 0 < depth then scanChunks r depth (cur ++ [c]) accC
      else scanChunks r depth [] (accC ++ [cur])
    else scanChunks r depth (cur ++ [c]) accC

/-- All triple chunks `parseSystemTasks` accumulates while scanning `s`. -/
def systemChunks (s : String) : List (List Char) := scanChunks s.toList 0 [] []

/-! ### Proportion and slack calculator -/

/-- The `FloorRoofFunctionType` enum. -/
inductive FloorRoofFunctionType
  | undefined
  | floor
  | ceiling
deriving DecidableEq

/-- `RTSystem.getTaskProportion(task, nextExpiration, functionType)`.  In the
source the `switch` lists `case FloorRoofFunctionType.ceiling` twice (the
second arm would choose `math.floor`); JavaScript executes the first matching
arm, so the floor arm is dead and every flag other than `ceiling` falls to the
`default` identity function. -/
def getTaskProportion (task : RTTask) (nextExpiration : ℚ)
    (functionType : FloorRoofFunctionType) : ℚ :=
  let mathFunction : ℚ → ℚ :=
    match functionType with
    | .ceiling => fun v => (⌈v⌉ : ℚ)
    | _ => fun v => v
  if 0 < task.period then
    mathFunction (nextExpiration / (task.period : ℚ)) * (task.executionTime : ℚ)
  else 0

/-- Following the spec's words (claims C8/C9), for comparison: the floor-based
proportion `floor(nextExpiration / period) * executionTime`. -/
def floorProportion (task : RTTask) (nextExpiration : ℚ) : ℚ :=
  if 0 < task.period then
    (⌊nextExpiration / (task.period : ℚ)⌋ : ℚ) * (task.executionTime : ℚ)
  else 0

/-- The `while (result < referenceCell) result += period` loop of
`RTSystem.getNextExpiration`, starting from `result = period`; `none` models a
run that does not finish within `fuel` body executions (e.g. `period = 0`). -/
def getNextExpirationAux (referenceCell period result : ℚ) : ℕ → Option ℚ
  | 0 => if result < referenceCell then none else some result
  | n + 1 =>
    if result < referenceCell then getNextExpirationAux referenceCell period (result + period) n
    else some result

/-- `RTSystem.getNextExpiration(referenceCell, period)`. -/
def getNextExpiration (referenceCell period : ℚ) (fuel : ℕ) : Option ℚ :=
  getNextExpirationAux referenceCell period period fuel

/-- The task loop of `RTSystem.getSlackExpirations`: for each task, its next
expiration at or after `lowerLimit`, kept when it lies in
`[lowerLimit, nextExpiration]`. -/
def getSlackExpirationsGo (lowerLimit nextExpiration : ℚ) (fuel : ℕ) :
    List RTTask → Option (List ℚ)
  | [] => some []
  | t :: r => do
    let e ← getNextExpiration lowerLimit (t.period : ℚ) fuel
    let rest ← getSlackExpirationsGo lowerLimit nextExpiration fuel r
    pure (if lowerLimit ≤ e ∧ e ≤ nextExpiration then e :: rest else rest)

/-- `RTSystem.getSlackExpirations(nextExpiration, responseCell,
taskExecutionTime)` proper, scanning the system's tasks. -/
def getSlackExpirations (ts : List RTTask) (nextExpiration responseCell
    taskExecutionTime : ℚ) (fuel : ℕ) : Option (List ℚ) :=
  getSlackExpirationsGo (nextExpiration - responseCell + taskExecutionTime)
    nextExpiration fuel ts

/-- `RTSystem.calculateF(task)`: the unmodeled blocking term, always 0. -/
def calculateF (_task : RTTask) : ℚ := 0

/-- The `partialSlacks` list built by `RTSystem.calculateTaskSlack`: for each
candidate expiration instant, `period - F - Σ_{k ≤ taskIndex} ceil-proportion`,
in candidate order.  (The loop reads `this.tasks[k]` for `k ≤ taskIndex`, so it
is only meaningful for `taskIndex < tasks.length`, matching `List.take`.) -/
def slackCandidates (ts : List RTTask) (task : RTTask) (responseTime : ℚ)
    (taskIndex : ℕ) (fuel : ℕ) : Option (List ℚ) :=
  let F := if responseTime ≤ (task.period : ℚ) then 0 else calculateF task
  (getSlackExpirations ts (task.period : ℚ) responseTime (task.executionTime : ℚ) fuel).map
    (fun es => es.map (fun e =>
      (task.period : ℚ) - F -
        ((ts.take (taskIndex + 1)).map
          (fun tk => getTaskProportion tk e FloorRoofFunctionType.ceiling)).sum))

/-- `RTSystem.calculateTaskSlack(task, responseTime, taskIndex)`:
`math.min` of the partial slacks (`math.min` of an empty array throws, hence
`none`), with a raw result of exactly `-1` normalized to `0`. -/
def calculateTaskSlack (ts : List RTTask) (task : RTTask) (responseTime : ℚ)
    (taskIndex : ℕ) (fuel : ℕ) : Option ℚ :=
  match slackCandidates ts task responseTime taskIndex fuel with
  | none => none
  | some [] => none
  | some (a :: r) =>
    let slack := r.foldl min a
    some (if slack = -1 then 0 else slack)

/-! ### RM scheduling simulator (`RTSystem.getRMScheduling`) -/

/-- The simulator's mutable state.  The JS code keys `executionCount`,
`nextStart` and `scheduling` by task id in plain objects; they are modelled as
total functions on `ℕ` (ids not belonging to any task are never touched).
`unattended` is `unattendendTasks` (a list of ids, duplicates possible),
`order` is `executionOrder` and `cell` is `currentCell`. -/
structure RMState where
  unattended : List ℕ
  executionCount : ℕ → ℕ
  nextStart : ℕ → ℕ
  sched : ℕ → List Bool
  order : List ℕ
  cell : ℕ

/-- The initial simulator state: every task pending, `executionCount` 0,
`nextStart` at the task's own period (first re-release at `t = period`),
empty occupancy rows and execution order. -/
def initState (ts : List RTTask) : RMState where
  unattended := ts.map RTTask.id
  executionCount := fun _ => 0
  nextStart := fun i => (((ts.find? (fun t => t.id = i)).map RTTask.period).getD 0)
  sched := fun _ => []
  order := []
  cell := 0

/-- The release check at the head of the inner task loop: when the current cell
equals the task's `nextStart`, advance `nextStart` by one period, reset the
task's `executionCount` and push its id back onto the pending list. -/
def releaseUpd (st : RMState) (t : RTTask) : RMState :=
  if st.cell = st.nextStart t.id then
    { st with
      nextStart := Function.update st.nextStart t.id (st.nextStart t.id + t.period)
      executionCount := Function.update st.executionCount t.id 0
      unattended := st.unattended ++ [t.id] }
  else st

/-- The selection step of the inner task loop: if no task has been selected in
this cell yet and the current task is pending, it executes (true occupancy bit,
incremented count, id appended to the execution order, removed from the pending
list once its execution units are complete); otherwise it records a false bit. -/
def selectUpd (st : RMState) (sel : Option RTTask) (t : RTTask) :
    RMState × Option RTTask :=
  if sel = none ∧ t.id ∈ st.unattended then
    let cnt := st.executionCount t.id + 1
    ({ st with
        sched := Function.update st.sched t.id (st.sched t.id ++ [true])
        executionCount := Function.update st.executionCount t.id cnt
        order := st.order ++ [t.id]
        unattended :=
          if t.executionTime ≤ cnt then st.unattended.filter (fun i => i ≠ t.id)
          else st.unattended },
      some t)
  else
    ({ st with sched := Function.update st.sched t.id (st.sched t.id ++ [false]) }, sel)

/-- One iteration of the inner `for` loop over the tasks. -/
def rmStep (p : RMState × Option RTTask) (t : RTTask) : RMState × Option RTTask :=
  selectUpd (releaseUpd p.1 t) p.2 t

/-- One cell of the simulation: process every task in priority (index) order
with the per-cell `selectedTask` starting at `null`, then advance the cell. -/
def processCell (ts : List RTTask) (st : RMState) : RMState :=
  let p := ts.foldl rmStep (st, none)
  { p.1 with cell := p.1.cell + 1 }

/-- The outer `while (unattendendTasks.length > 0)` loop, bounded by `fuel`
cells (`none` models a run that has not drained within the bound). -/
def rmRun (ts : List RTTask) (st : RMState) (fuel : ℕ) : Option RMState :=
  if st.unattended = [] then some st
  else
    match fuel with
    | 0 => none
    | n + 1 => rmRun ts (processCell ts st) n

/-- A default state, used only to read the final state of a run already known
to have terminated. -/
def dummyState : RMState :=
  ⟨[], fun _ => 0, fun _ => 0, fun _ => [], [], 0⟩

/-- `RTSystem.getRMScheduling()`: run the simulation from the initial state;
the result carries the occupancy mapping (`sched`), the execution order and
the number of simulated cells. -/
def getRMScheduling (ts : List RTTask) (fuel : ℕ) : Option RMState :=
  rmRun ts (initState ts) fuel

/-- The final state of a terminating run (meaningful when `getRMScheduling`
returns `some`). -/
def rmFinal (ts : List RTTask) (fuel : ℕ) : RMState :=
  (getRMScheduling ts fuel).getD dummyState

/-- The number of true occupancy bits in a row. -/
def trueCount (l : List Bool) : ℕ := l.count true

/-! ### Specification-side definitions used for comparison -/

/-- Following the spec's words (claim C4): a task's raw (unrounded)
utilization `executionTime / period`, 0 when the period is 0. -/
def rawFu (t : RTTask) : ℚ :=
  if 0 < t.period then (t.executionTime : ℚ) / (t.period : ℚ) else 0

/-- Following the spec's words (claim C4), for comparison with `getFU`:
the arithmetic sum of the raw utilizations, rounded once at the end. -/
def totalUtilizationSpec (ts : List RTTask) : ℚ :=
  roundP defaultDecimals ((ts.map rawFu).sum)

/-- The structural properties claim C10 asserts of a terminated RM simulation:
all occupancy rows have length equal to the number of simulated cells, so does
the execution order, and at every cell exactly one task's bit is true — the
task whose id the execution order records at that cell. -/
def rmInvariantProps (ts : List RTTask) (st : RMState) : Prop :=
  (∀ t ∈ ts, (st.sched t.id).length = st.cell) ∧
  st.order.length = st.cell ∧
  ∀ c, c < st.cell →
    ∃ t ∈ ts, (st.sched t.id).get? c = some true ∧ st.order.get? c = some t.id ∧
      ∀ u ∈ ts, u.id ≠ t.id → (st.sched u.id).get? c = some false

/-- The invariant maintained across whole cells of the RM simulation:
`rmInvariantProps` plus the pending list holding only ids of the system's
tasks and per-task true-bit counts matching the execution order. -/
def CellInv (ts : List RTTask) (st : RMState) : Prop :=
  (∀ t ∈ ts, (st.sched t.id).length = st.cell) ∧
  st.order.length = st.cell ∧
  (∀ i ∈ st.unattended, ∃ t ∈ ts, t.id = i) ∧
  (∀ c, c < st.cell →
    ∃ t ∈ ts, (st.sched t.id).get? c = some true ∧ st.order.get? c = some t.id ∧
      ∀ u ∈ ts, u.id ≠ t.id → (st.sched u.id).get? c = some false) ∧
  (∀ t ∈ ts, trueCount (st.sched t.id) = st.order.count t.id)

/-- The invariant along the inner task loop of one cell: `done` are the tasks
already processed, `todo` the rest, `st0` the state at the cell's start.
Processed tasks have exactly one new occupancy bit; the unprocessed rows are
untouched; when no task has been selected yet no row got a true bit, the order
is unchanged, no processed task is still pending and nothing was removed from
the pending list; once `sel` holds the selected task, exactly its row got the
true bit and exactly its id was appended to the order. -/
def MidInv (ts done todo : List RTTask) (st0 st : RMState)
    (sel : Option RTTask) : Prop :=
  st.cell = st0.cell ∧
  (∀ i ∈ st.unattended, ∃ t ∈ ts, t.id = i) ∧
  (∀ t ∈ todo, st.sched t.id = st0.sched t.id) ∧
  match sel with
  | none =>
      st.order = st0.order ∧
      (∀ t ∈ done, st.sched t.id = st0.sched t.id ++ [false]) ∧
      (∀ t ∈ done, t.id ∉ st.unattended) ∧
      (∀ i ∈ st0.unattended, i ∈ st.unattended)
  | some s =>
      s ∈ done ∧ st.order = st0.order ++ [s.id] ∧
      st.sched s.id = st0.sched s.id ++ [true] ∧
      (∀ t ∈ done, t ≠ s → st.sched t.id = st0.sched t.id ++ [false])

/-! ### Concrete example systems -/

/-- Two tasks for which the second task's response-time iteration first
detects its fixed point exactly at the 50th loop iteration. -/
def sysSlow50 : List RTTask := [⟨1, 99, 100, 100⟩, ⟨2, 50, 1000000, 1000000⟩]

/-- Two tasks for which the second task's response-time iteration needs more
than 50 iterations, so `getTaskTiming` ends in the sentinel `-1`. -/
def sysSlow60 : List RTTask := [⟨1, 99, 100, 100⟩, ⟨2, 60, 100000, 100000⟩]

/-- A harmless two-task system whose analyses all converge at once. -/
def sysTwo : List RTTask := [⟨1, 1, 2, 2⟩, ⟨2, 1, 10, 10⟩]

/-- A single task occupying half its period. -/
def sysSingle : List RTTask := [⟨1, 1, 2, 2⟩]

/-- Two tasks whose RM simulation drains at cell 3, well before the
hyperperiod 8. -/
def sysRM : List RTTask := [⟨1, 2, 4, 4⟩, ⟨2, 1, 8, 8⟩]

/-- Two identical tasks of utilization 1/3: rounding each `fu` before summing
loses the value `2/3` would round to. -/
def sysThird : List RTTask := [⟨1, 1, 3, 3⟩, ⟨2, 1, 3, 3⟩]

/-- Two tasks with total utilization exactly 0.83, between the exact
two-task Liu bound `2(√2 - 1) ≈ 0.8284` and its 2-decimal rounding 0.83. -/
def sysLiu : List RTTask := [⟨1, 53, 100, 100⟩, ⟨2, 30, 100, 100⟩]

/-- A single task demanding more than its whole period, so its slack is the
negative value -2 (not -1, hence not normalized). -/
def sysOverrun : List RTTask := [⟨1, 5, 3, 3⟩]

/-- The task whose slack calculateTaskSlack reports as -2. -/
def overTask : RTTask := ⟨1, 5, 3, 3⟩

/-- A task used to exhibit the proportion functions disagreeing. -/
def demoTask : RTTask := ⟨1, 2, 2, 2⟩

/-! ## Supporting lemmas -/

lemma foldlMin_mem : ∀ (l : List ℚ) (a : ℚ), l.foldl min a ∈ a :: l := by
  intro l
  induction l with
  | nil => intro a; simp
  | cons b r ih =>
    intro a
    rw [List.foldl_cons]
    rcases List.mem_cons.1 (ih (min a b)) with h | h
    · rcases min_choice a b with h2 | h2
      · rw [h, h2]; exact List.mem_cons_self _ _
      · rw [h, h2]; exact List.mem_cons_of_mem _ (List.mem_cons_self _ _)
    · exact List.mem_cons_of_mem _ (List.mem_cons_of_mem _ h)

lemma foldlMin_le : ∀ (l : List ℚ) (a x : ℚ), x ∈ a :: l → l.foldl min a ≤ x := by
  intro l
  induction l with
  | nil =>
    intro a x hx
    simp only [List.mem_singleton] at hx
    simp [hx]
  | cons b r ih =>
    intro a x hx
    rw [List.foldl_cons]
    rcases List.mem_cons.1 hx with h | h
    · exact le_trans (ih (min a b) (min a b) (List.mem_cons_self _ _))
        (h ▸ min_le_left a b)
    · rcases List.mem_cons.1 h with h2 | h2
      · exact le_trans (ih (min a b) (min a b) (List.mem_cons_self _ _))
          (h2 ▸ min_le_right a b)
      · exact ih (min a b) x (List.mem_cons_of_mem _ h2)

lemma rtIterGo_fix : ∀ (rem : ℕ) (hp : List RTTask) (c seed : ℤ) (count : ℕ),
    (rtIterGo hp c seed count rem).2 < count + rem + 1 →
    (rtIterGo hp c seed count rem).1 =
      c + interference hp (rtIterGo hp c seed count rem).1 := by
  intro rem
  induction rem with
  | zero =>
    intro hp c seed count h
    simp only [rtIterGo] at h
    by_cases hf : c + interference hp seed = seed
    · rw [if_pos hf] at h; omega
    · rw [if_neg hf] at h; omega
  | succ r ih =>
    intro hp c seed count h
    simp only [rtIterGo] at h ⊢
    by_cases hf : c + interference hp seed = seed
    · rw [if_pos hf] at h ⊢
      rw [hf]
      exact hf.symm
    · rw [if_neg hf] at h ⊢
      exact ih hp c (c + interference hp seed) (count + 1) (by omega)

lemma iterFix_fix : ∀ (fuel : ℕ) (f : ℤ → ℤ) (cur m : ℤ),
    iterFix f cur fuel = some m → f m = m := by
  intro fuel
  induction fuel with
  | zero => intro f cur m h; simp [iterFix] at h
  | succ n ih =>
    intro f cur m h
    simp only [iterFix] at h
    by_cases hf : f cur = cur
    · rw [if_pos hf] at h
      obtain rfl : cur = m := Option.some_inj.1 h
      exact hf
    · rw [if_neg hf] at h
      exact ih f (f cur) m h

lemma timingGo_next (ts : List RTTask) :
    ∀ (l : List RTTask) (t : ℕ) (prev x : ℤ) (k : ℕ) (task : RTTask),
    (getTaskTimingGo ts prev t l).get? k = some x →
    l.get? (k + 1) = some task →
    (getTaskTimingGo ts prev t l).get? (k + 1) =
      some (getTaskResponse ts task x (t + k + 1)) := by
  intro l
  induction l with
  | nil => intro t prev x k task hx hl; simp at hl
  | cons t0 r ih =>
    intro t prev x k task hx hl
    cases k with
    | zero =>
      simp only [getTaskTimingGo, List.get?_cons_zero, Option.some_inj] at hx
      simp only [List.get?_cons_succ] at hl
      cases r with
      | nil => simp at hl
      | cons t1 r' =>
        simp only [List.get?_cons_zero, Option.some_inj] at hl
        subst hl
        simp only [getTaskTimingGo, List.get?_cons_succ, List.get?_cons_zero]
        rw [← hx]
    | succ k' =>
      simp only [getTaskTimingGo, List.get?_cons_succ] at hx hl ⊢
      have := ih (t + 1) (getTaskResponse ts t0 prev t) x k' task hx hl
      have harith : t + 1 + k' + 1 = t + (k' + 1) + 1 := by omega
      rw [harith] at this
      exact this

lemma parseAux_depth : ∀ (l : List Char) (depth : ℕ) (cur : List Char)
    (acc : List RTTask) (nid : ℕ),
    0 < l.foldl (fun d c => if c = '(' then d + 1 else if c = ')' then d - 1 else d) depth →
    parseAux l depth cur acc nid = none := by
  intro l
  induction l with
  | nil =>
    intro depth cur acc nid h
    simp only [List.foldl_nil] at h
    simp [parseAux, h]
  | cons c r ih =>
    intro depth cur acc nid h
    simp only [List.foldl_cons] at h
    by_cases h1 : c = ' '
    · subst h1
      simp only [parseAux, if_pos rfl]
      exact ih depth cur acc nid (by simpa using h)
    · by_cases h2 : c = '('
      · subst h2
        simp only [parseAux]
        norm_num
        exact ih (depth + 1) (cur ++ ['(']) acc nid (by simpa using h)
      · by_cases h3 : c = ')'
        · subst h3
          simp only [parseAux]
          norm_num
          exact ih (depth - 1) (cur ++ [')']) acc nid (by simpa using h)
        · by_cases h4 : c = ','
          · subst h4
            simp only [parseAux]
            norm_num
            have hstep : 0 < r.foldl
                (fun d c => if c = '(' then d + 1 else if c = ')' then d - 1 else d)
                depth := by simpa using h
            by_cases hd : 0 < depth
            · rw [if_pos hd]
              exact ih depth (cur ++ [',']) acc nid hstep
            · rw [if_neg hd]
              cases hp : parseTask nid cur with
              | none => rfl
              | some t => exact ih depth [] (acc ++ [t]) (nid + 1) hstep
          · simp only [parseAux, if_neg h1, if_neg h2, if_neg h3, if_neg h4]
            exact ih depth (cur ++ [c]) acc nid
              (by simpa [h1, h2, h3, h4] using h)

lemma scanChunks_append : ∀ (l : List Char) (depth : ℕ) (cur : List Char)
    (accC : List (List Char)),
    scanChunks l depth cur accC = accC ++ scanChunks l depth cur [] := by
  intro l
  induction l with
  | nil =>
    intro depth cur accC
    simp only [scanChunks]
    by_cases hc : cur.length > 0
    · rw [if_pos hc, if_pos hc]
      simp
    · rw [if_neg hc, if_neg hc, List.append_nil]
  | cons c r ih =>
    intro depth cur accC
    simp only [scanChunks]
    by_cases h1 : c = ' '
    · rw [if_pos h1, if_pos h1]
      exact ih depth cur accC
    · rw [if_neg h1, if_neg h1]
      by_cases h2 : c = '('
      · rw [if_pos h2, if_pos h2]
        exact ih _ _ accC
      · rw [if_neg h2, if_neg h2]
        by_cases h3 : c = ')'
        · rw [if_pos h3, if_pos h3]
          exact ih _ _ accC
        · rw [if_neg h3, if_neg h3]
          by_cases h4 : c = ','
          · rw [if_pos h4, if_pos h4]
            by_cases hd : 0 < depth
            · rw [if_pos hd, if_pos hd]
              exact ih _ _ accC
            · rw [if_neg hd, if_neg hd]
              rw [ih depth [] (accC ++ [cur]), ih depth [] ([] ++ [cur])]
              simp
          · rw [if_neg h4, if_neg h4]
            exact ih _ _ accC

lemma parseAux_chunk_fail : ∀ (l : List Char) (depth : ℕ) (cur : List Char)
    (acc : List RTTask) (nid : ℕ) (chunk : List Char),
    chunk ∈ scanChunks l depth cur [] → execTriple chunk = none →
    parseAux l depth cur acc nid = none := by
  intro l
  induction l with
  | nil =>
    intro depth cur acc nid chunk hmem hfail
    simp only [scanChunks] at hmem
    by_cases hc : cur.length > 0
    · rw [if_pos hc] at hmem
      simp only [List.nil_append, List.mem_singleton] at hmem
      subst hmem
      simp only [parseAux]
      by_cases hd : 0 < depth
      · rw [if_pos hd]
      · rw [if_neg hd, if_pos hc]
        simp [parseTask, hfail]
    · rw [if_neg hc] at hmem
      simp at hmem
  | cons c r ih =>
    intro depth cur acc nid chunk hmem hfail
    simp only [scanChunks] at hmem
    simp only [parseAux]
    by_cases h1 : c = ' '
    · rw [if_pos h1] at hmem ⊢
      exact ih depth cur acc nid chunk hmem hfail
    · rw [if_neg h1] at hmem ⊢
      by_cases h2 : c = '('
      · rw [if_pos h2] at hmem ⊢
        exact ih _ _ acc nid chunk hmem hfail
      · rw [if_neg h2] at hmem ⊢
        by_cases h3 : c = ')'
        · rw [if_pos h3] at hmem ⊢
          exact ih _ _ acc nid chunk hmem hfail
        · rw [if_neg h3] at hmem ⊢
          by_cases h4 : c = ','
          · rw [if_pos h4] at hmem ⊢
            by_cases hd : 0 < depth
            · rw [if_pos hd] at hmem ⊢
              exact ih _ _ acc nid chunk hmem hfail
            · rw [if_neg hd] at hmem ⊢
              rw [scanChunks_append r depth [] ([] ++ [cur])] at hmem
              rcases List.mem_append.1 hmem with hm | hm
              · simp only [List.nil_append, List.mem_singleton] at hm
                subst hm
                simp [parseTask, hfail]
              · cases hp : parseTask nid cur with
                | none => simp [hp]
                | some t =>
                  simp only [hp]
                  exact ih depth [] (acc ++ [t]) (nid + 1) chunk hm hfail
          · rw [if_neg h4] at hmem ⊢
            exact ih _ _ acc nid chunk hmem hfail

/-! ### RM simulator invariant lemmas -/

lemma releaseUpd_cell (st : RMState) (t : RTTask) :
    (releaseUpd st t).cell = st.cell := by
  unfold releaseUpd; split <;> rfl

lemma releaseUpd_sched (st : RMState) (t : RTTask) :
    (releaseUpd st t).sched = st.sched := by
  unfold releaseUpd; split <;> rfl

lemma releaseUpd_order (st : RMState) (t : RTTask) :
    (releaseUpd st t).order = st.order := by
  unfold releaseUpd; split <;> rfl

lemma releaseUpd_unattended_sup (st : RMState) (t : RTTask) :
    ∀ i ∈ st.unattended, i ∈ (releaseUpd st t).unattended := by
  intro i hi
  unfold releaseUpd
  split
  · simp [hi]
  · exact hi

lemma releaseUpd_unattended_sub (st : RMState) (t : RTTask) :
    ∀ i ∈ (releaseUpd st t).unattended, i ∈ st.unattended ∨ i = t.id := by
  intro i hi
  unfold releaseUpd at hi
  split at hi
  · simpa using hi
  · exact Or.inl hi

lemma ids_ne_of_split {ts done todo : List RTTask} {t : RTTask}
    (hnd : (ts.map RTTask.id).Nodup) (hts : ts = done ++ t :: todo) :
    (∀ u ∈ done, u.id ≠ t.id) ∧ (∀ u ∈ todo, u.id ≠ t.id) := by
  subst hts
  rw [List.map_append, List.nodup_append] at hnd
  obtain ⟨-, h2, hdisj⟩ := hnd
  constructor
  · intro u hu he
    exact hdisj (List.mem_map_of_mem RTTask.id hu) (by simp [← he])
  · intro u hu he
    rw [List.map_cons, List.nodup_cons] at h2
    exact h2.1 (he ▸ List.mem_map_of_mem RTTask.id hu)

lemma id_inj_of_nodup {ts : List RTTask} (hnd : (ts.map RTTask.id).Nodup)
    {u v : RTTask} (hu : u ∈ ts) (hv : v ∈ ts) (h : u.id = v.id) : u = v :=
  List.inj_on_of_nodup_map hnd hu hv h

lemma rmStep_midinv (ts : List RTTask) (hnd : (ts.map RTTask.id).Nodup)
    {done todo : List RTTask} {t : RTTask} (hts : ts = done ++ t :: todo)
    (st0 st : RMState) (sel : Option RTTask)
    (hinv : MidInv ts done (t :: todo) st0 st sel) :
    MidInv ts (done ++ [t]) todo st0 (rmStep (st, sel) t).1 (rmStep (st, sel) t).2 := by
  obtain ⟨hcell, _hsub, hrows, hsel⟩ := hinv
  obtain ⟨hid_done, hid_todo⟩ := ids_ne_of_split hnd hts
  have ht_mem : t ∈ ts := by
    rw [hts]; exact List.mem_append_right _ (List.mem_cons_self _ _)
  have hrow_t : st.sched t.id = st0.sched t.id := hrows t (List.mem_cons_self _ _)
  have hrows_todo : ∀ u ∈ todo, st.sched u.id = st0.sched u.id := fun u hu =>
    hrows u (List.mem_cons_of_mem _ hu)
  have h1cell : (releaseUpd st t).cell = st.cell := releaseUpd_cell st t
  have h1sched : (releaseUpd st t).sched = st.sched := releaseUpd_sched st t
  have h1order : (releaseUpd st t).order = st.order := releaseUpd_order st t
  have h1sub : ∀ i ∈ (releaseUpd st t).unattended, ∃ u ∈ ts, u.id = i := by
    intro i hi
    rcases releaseUpd_unattended_sub st t i hi with h | h
    · exact _hsub i h
    · exact ⟨t, ht_mem, h.symm⟩
  show MidInv ts (done ++ [t]) todo st0 (selectUpd (releaseUpd st t) sel t).1
    (selectUpd (releaseUpd st t) sel t).2
  cases sel with
  | some s =>
    obtain ⟨hsdone, horder, hsrow, hdrows⟩ := hsel
    have hcond : ¬((some s : Option RTTask) = none ∧
        t.id ∈ (releaseUpd st t).unattended) := by simp
    rw [selectUpd, if_neg hcond]
    simp only [MidInv]
    have hs_ne : s.id ≠ t.id := hid_done s hsdone
    refine ⟨by rw [h1cell, hcell], h1sub, ?_, List.mem_append_left _ hsdone,
      by rw [h1order, horder], ?_, ?_⟩
    · intro u hu
      rw [Function.update_noteq (hid_todo u hu), h1sched]
      exact hrows_todo u hu
    · rw [Function.update_noteq hs_ne, h1sched]
      exact hsrow
    · intro u hu hus
      rcases List.mem_append.1 hu with hu | hu
      · rw [Function.update_noteq (hid_done u hu), h1sched]
        exact hdrows u hu hus
      · obtain rfl : u = t := List.mem_singleton.1 hu
        rw [Function.update_same, h1sched, hrow_t]
  | none =>
    obtain ⟨horder, hdrows, hnotin, hsup0⟩ := hsel
    by_cases hmem : t.id ∈ (releaseUpd st t).unattended
    · rw [selectUpd, if_pos ⟨rfl, hmem⟩]
      simp only [MidInv]
      refine ⟨by rw [h1cell, hcell], ?_, ?_, List.mem_append_right _ (List.mem_singleton.2 rfl),
        by rw [h1order, horder], by rw [Function.update_same, h1sched, hrow_t], ?_⟩
      · intro i hi
        have hi' : i ∈ (releaseUpd st t).unattended := by
          by_cases hcnt : t.executionTime ≤ (releaseUpd st t).executionCount t.id + 1
          · rw [if_pos hcnt] at hi
            exact (List.mem_filter.1 hi).1
          · rw [if_neg hcnt] at hi
            exact hi
        exact h1sub i hi'
      · intro u hu
        rw [Function.update_noteq (hid_todo u hu), h1sched]
        exact hrows_todo u hu
      · intro u hu hus
        rcases List.mem_append.1 hu with hu | hu
        · rw [Function.update_noteq (hid_done u hu), h1sched]
          exact hdrows u hu
        · exact absurd (List.mem_singleton.1 hu) hus
    · rw [selectUpd, if_neg (fun hc => hmem hc.2)]
      simp only [MidInv]
      refine ⟨by rw [h1cell, hcell], h1sub, ?_, by rw [h1order, horder], ?_, ?_, ?_⟩
      · intro u hu
        rw [Function.update_noteq (hid_todo u hu), h1sched]
        exact hrows_todo u hu
      · intro u hu
        rcases List.mem_append.1 hu with hu | hu
        · rw [Function.update_noteq (hid_done u hu), h1sched]
          exact hdrows u hu
        · obtain rfl : u = t := List.mem_singleton.1 hu
          rw [Function.update_same, h1sched, hrow_t]
      · intro u hu
        rcases List.mem_append.1 hu with hu | hu
        · intro hin
          rcases releaseUpd_unattended_sub st t u.id hin with h | h
          · exact hnotin u hu h
          · exact hid_done u hu h
        · obtain rfl : u = t := List.mem_singleton.1 hu
          exact hmem
      · intro i hi
        exact releaseUpd_unattended_sup st t i (hsup0 i hi)

lemma rmFold_midinv (ts : List RTTask) (hnd : (ts.map RTTask.id).Nodup)
    (st0 : RMState) :
    ∀ (todo done : List RTTask), ts = done ++ todo →
    ∀ p : RMState × Option RTTask, MidInv ts done todo st0 p.1 p.2 →
    MidInv ts ts [] st0 (todo.foldl rmStep p).1 (todo.foldl rmStep p).2 := by
  intro todo
  induction todo with
  | nil =>
    intro done hts p hinv
    rw [List.foldl_nil]
    rw [List.append_nil] at hts
    subst hts
    exact hinv
  | cons t rest ih =>
    intro done hts p hinv
    rw [List.foldl_cons]
    have hts' : ts = (done ++ [t]) ++ rest := by rw [hts]; simp
    exact ih (done ++ [t]) hts' (rmStep p t)
      (rmStep_midinv ts hnd hts st0 p.1 p.2 hinv)

lemma processCell_cellinv (ts : List RTTask) (hnd : (ts.map RTTask.id).Nodup)
    (st : RMState) (hinv : CellInv ts st) (hne : st.unattended ≠ []) :
    CellInv ts (processCell ts st) := by
  obtain ⟨hlen, holen, hsub, hcells, hcnt⟩ := hinv
  have h0 : MidInv ts [] ts st st none := by
    refine ⟨rfl, hsub, fun u _ => rfl, rfl, ?_, ?_, fun i hi => hi⟩
    · intro u hu; exact absurd hu (List.not_mem_nil u)
    · intro u hu; exact absurd hu (List.not_mem_nil u)
  have hF := rmFold_midinv ts hnd st ts [] rfl (st, none) h0
  obtain ⟨hFcell, hFsub, -, hFmatch⟩ := hF
  simp only [processCell]
  cases hsel : (ts.foldl rmStep (st, none)).2 with
  | none =>
    rw [hsel] at hFmatch
    obtain ⟨-, -, hnotin, hsup⟩ := hFmatch
    obtain ⟨i0, hi0⟩ := List.exists_mem_of_ne_nil _ hne
    obtain ⟨u, hu, hui⟩ := hsub i0 hi0
    exact absurd (hui ▸ hsup i0 hi0) (hnotin u hu)
  | some s =>
    rw [hsel] at hFmatch
    obtain ⟨hsmem, horder, hsrow, hdrows⟩ := hFmatch
    have hrow : ∀ u ∈ ts, (ts.foldl rmStep (st, none)).1.sched u.id =
        st.sched u.id ++ [if u = s then true else false] := by
      intro u hu
      by_cases hus : u = s
      · subst hus; rw [if_pos rfl]; exact hsrow
      · rw [if_neg hus]; exact hdrows u hu hus
    have hid_ne : ∀ u ∈ ts, u ≠ s → u.id ≠ s.id := by
      intro u hu hus he
      exact hus (id_inj_of_nodup hnd hu hsmem he)
    refine ⟨?_, ?_, ?_, ?_, ?_⟩
    · intro u hu
      show ((ts.foldl rmStep (st, none)).1.sched u.id).length =
        (ts.foldl rmStep (st, none)).1.cell + 1
      rw [hrow u hu, hFcell, List.length_append, hlen u hu]
      rfl
    · show (ts.foldl rmStep (st, none)).1.order.length =
        (ts.foldl rmStep (st, none)).1.cell + 1
      rw [horder, hFcell, List.length_append, holen]
      rfl
    · intro i hi
      exact hFsub i hi
    · intro c hc
      change c < (ts.foldl rmStep (st, none)).1.cell + 1 at hc
      rw [hFcell] at hc
      rcases Nat.lt_succ_iff_lt_or_eq.1 hc with hc | hc
      · obtain ⟨u, hu, htrue, hordc, hothers⟩ := hcells c hc
        refine ⟨u, hu, ?_, ?_, ?_⟩
        · show ((ts.foldl rmStep (st, none)).1.sched u.id).get? c = some true
          rw [hrow u hu, List.get?_append (by rw [hlen u hu]; exact hc)]
          exact htrue
        · show (ts.foldl rmStep (st, none)).1.order.get? c = some u.id
          rw [horder, List.get?_append (by rw [holen]; exact hc)]
          exact hordc
        · intro v hv hvu
          show ((ts.foldl rmStep (st, none)).1.sched v.id).get? c = some false
          rw [hrow v hv, List.get?_append (by rw [hlen v hv]; exact hc)]
          exact hothers v hv hvu
      · subst hc
        refine ⟨s, hsmem, ?_, ?_, ?_⟩
        · show ((ts.foldl rmStep (st, none)).1.sched s.id).get? st.cell = some true
          rw [hrow s hsmem, if_pos rfl, ← hlen s hsmem, List.get?_concat_length]
        · show (ts.foldl rmStep (st, none)).1.order.get? st.cell = some s.id
          rw [horder, ← holen, List.get?_concat_length]
        · intro v hv hvs
          have hv_ne : v ≠ s := fun he => hvs (he ▸ rfl)
          show ((ts.foldl rmStep (st, none)).1.sched v.id).get? st.cell = some false
          rw [hrow v hv, if_neg hv_ne, ← hlen v hv, List.get?_concat_length]
    · intro u hu
      show trueCount ((ts.foldl rmStep (st, none)).1.sched u.id) =
        (ts.foldl rmStep (st, none)).1.order.count u.id
      rw [hrow u hu, horder]
      unfold trueCount
      rw [List.count_append, List.count_append]
      by_cases hus : u = s
      · subst hus
        rw [if_pos rfl]
        have := hcnt u hu
        unfold trueCount at this
        rw [this]
        simp
      · rw [if_neg hus]
        have := hcnt u hu
        unfold trueCount at this
        rw [this]
        simp [List.count_singleton', hid_ne u hu hus]

lemma initState_cellinv (ts : List RTTask) : CellInv ts (initState ts) := by
  refine ⟨fun t _ => rfl, rfl, ?_, ?_, fun t _ => rfl⟩
  · intro i hi
    obtain ⟨t, ht, hti⟩ := List.mem_map.1 hi
    exact ⟨t, ht, hti⟩
  · intro c hc
    exact absurd hc (Nat.not_lt_zero c)

lemma rmRun_cellinv (ts : List RTTask) (hnd : (ts.map RTTask.id).Nodup) :
    ∀ (fuel : ℕ) (st stF : RMState), CellInv ts st → rmRun ts st fuel = some stF →
    CellInv ts stF := by
  intro fuel
  induction fuel with
  | zero =>
    intro st stF hinv h
    rw [rmRun] at h
    by_cases hne : st.unattended = []
    · rw [if_pos hne] at h
      exact (Option.some_inj.1 h) ▸ hinv
    · rw [if_neg hne] at h
      exact absurd h (by simp)
  | succ n ih =>
    intro st stF hinv h
    rw [rmRun] at h
    by_cases hne : st.unattended = []
    · rw [if_pos hne] at h
      exact (Option.some_inj.1 h) ▸ hinv
    · rw [if_neg hne] at h
      exact ih (processCell ts st) stF (processCell_cellinv ts hnd st hinv hne) h

/-! ## Claim theorems -/

/-- Claim C1, counterexample: for the second task of `sysSlow50` the iteration
reaches its fixed point 5000 (`5000 = C + ceil(5000/T_1) * C_1`) exactly at
the 50th loop iteration — within the 50-iteration cap — yet `getTaskResponse`
reports the sentinel `-1` instead of the fixed point, because the source's
final test `iterationCount < 50` is strict. -/
theorem c1_counterexample :
    getTaskTiming sysSlow50 = [99, -1] ∧
    rtIter (sysSlow50.take (1 % sysSlow50.length)) 50 (99 + 50) = (5000, 50) ∧
    (50 : ℤ) + interference (sysSlow50.take (1 % sysSlow50.length)) 5000 = 5000 ∧
    getTaskResponse sysSlow50 ⟨2, 50, 1000000, 1000000⟩ 99 1 = -1 := by decide

/-- Claim C1 as amended: the response-time computation iterates
`t(k+1) = C_i + Σ_{j<i} ceil(t(k)/T_j) * C_j`; whenever `getTaskResponse`
returns a value other than the sentinel `-1` — which it does exactly when the
fixed-point test succeeds in strictly fewer than 50 iterations — that value is
a fixed point of the recurrence.  (A fixed point first detected on the 50th
iteration is still reported as `-1`, as the counterexample shows.) -/
theorem c1_response_fixed_point (ts : List RTTask) (task : RTTask) (prev : ℤ)
    (idx : ℕ) (h : getTaskResponse ts task prev idx ≠ -1) :
    getTaskResponse ts task prev idx =
      (task.executionTime : ℤ) +
        interference (ts.take (idx % ts.length)) (getTaskResponse ts task prev idx) := by
  unfold getTaskResponse at h ⊢
  by_cases h50 :
    (rtIter (ts.take (idx % ts.length)) (task.executionTime : ℤ)
      (prev + (task.executionTime : ℤ))).2 < 50
  · simp only [if_pos h50] at h ⊢
    exact rtIterGo_fix 49 (ts.take (idx % ts.length)) (task.executionTime : ℤ)
      (prev + (task.executionTime : ℤ)) 0 (by simpa [rtIter] using h50)
  · simp only [if_neg h50] at h
    exact absurd rfl h

/-- Claim C1, witness for the amended theorem: `sysTwo`'s second task has the
non-sentinel response 2, which is a fixed point of its recurrence. -/
theorem c1_witness :
    getTaskResponse sysTwo ⟨2, 1, 10, 10⟩ 1 1 =
      ((⟨2, 1, 10, 10⟩ : RTTask).executionTime : ℤ) +
        interference (sysTwo.take (1 % sysTwo.length))
          (getTaskResponse sysTwo ⟨2, 1, 10, 10⟩ 1 1) :=
  c1_response_fixed_point sysTwo ⟨2, 1, 10, 10⟩ 1 1 (by decide)

/-- Claim C2: `getTaskTiming` gives the first task its own execution time; each
later entry is `getTaskResponse` of the previous entry; and `getTaskResponse`
seeds its fixed-point iteration at the previous task's computed response time
plus the current task's execution time. -/
theorem c2_seed_chain (ts : List RTTask) (hne : ts ≠ []) :
    ((getTaskTiming ts).get? 0 = (ts.get? 0).map fun t => (t.executionTime : ℤ)) ∧
    (∀ (i : ℕ) (prev : ℤ) (task : RTTask),
      (getTaskTiming ts).get? i = some prev → ts.get? (i + 1) = some task →
      (getTaskTiming ts).get? (i + 1) = some (getTaskResponse ts task prev (i + 1))) ∧
    (∀ (task : RTTask) (prevT : ℤ) (idx : ℕ),
      getTaskResponse ts task prevT idx =
        (fun p : ℤ × ℕ => if p.2 < 50 then p.1 else -1)
          (rtIter (ts.take (idx % ts.length)) (task.executionTime : ℤ)
            (prevT + (task.executionTime : ℤ)))) := by
  match ts with
  | [] => exact absurd rfl hne
  | t0 :: rest =>
    refine ⟨rfl, ?_, fun task prevT idx => rfl⟩
    intro i prev task hx hl
    cases i with
    | zero =>
      simp only [getTaskTiming, List.get?_cons_zero, Option.some_inj] at hx
      simp only [List.get?_cons_succ] at hl
      cases rest with
      | nil => simp at hl
      | cons t1 r' =>
        simp only [List.get?_cons_zero, Option.some_inj] at hl
        subst hl
        simp only [getTaskTiming, List.get?_cons_succ, getTaskTimingGo,
          List.get?_cons_zero]
        rw [hx]
    | succ j =>
      simp only [getTaskTiming, List.get?_cons_succ] at hx hl ⊢
      have := timingGo_next (t0 :: rest) rest 1 (t0.executionTime : ℤ) prev j task hx hl
      have harith : 1 + j + 1 = j + 1 + 1 := by omega
      rw [harith] at this
      exact this

/-- Claim C2, witness: in `sysTwo` the second response entry is
`getTaskResponse` chained on the first entry 1. -/
theorem c2_witness :
    (getTaskTiming sysTwo).get? 1 = some (getTaskResponse sysTwo ⟨2, 1, 10, 10⟩ 1 1) :=
  (c2_seed_chain sysTwo (by decide)).2.1 0 1 ⟨2, 1, 10, 10⟩ (by decide) (by decide)

/-- Claim C4, counterexample: for two tasks of utilization 1/3 each, summing
the per-task rounded `fu` values yields 0.66, while rounding the raw sum 2/3
(what the claim asserts) yields 0.67. -/
theorem c4_counterexample :
    getFU sysThird = 33 / 50 ∧ totalUtilizationSpec sysThird = 67 / 100 ∧
      getFU sysThird ≠ totalUtilizationSpec sysThird := by
  norm_num [getFU, totalUtilizationSpec, RTTask.fu, rawFu, roundP, defaultDecimals,
    sysThird]

/-- Claim C4 as amended: `getFU` equals the sum of the per-task utilizations
each already rounded to the fixed decimal precision (the stored `fu` fields),
rounded once more to that precision — not the rounding of the raw sum. -/
theorem c4_total_utilization (ts : List RTTask) :
    getFU ts =
      roundP defaultDecimals
        ((ts.map fun t => roundP defaultDecimals (rawFu t)).sum) := rfl

/-- Claim C6, counterexample: in `sysSlow60` the last response time is the
sentinel `-1` while the maximum is 99, so `getFirstFreeSlot`'s actual seed
`1 + _.last(responseTimes())` is 0 and not the claimed
`1 + max(responseTimes())` = 100. -/
theorem c6_counterexample :
    ffsSeed sysSlow60 = some 0 ∧ ffsSeedSpec sysSlow60 = some 100 ∧
      ffsSeed sysSlow60 ≠ ffsSeedSpec sysSlow60 := by decide

/-- Claim C6 as amended: whenever `getFirstFreeSlot` terminates, its value is
a fixed point of the recurrence `m = 1 + Σ_j ceil(m/T_j) * C_j` in which no
task is excluded; the iteration is seeded at `1 + last(responseTimes())`
(which is `1 + max(responseTimes())` only when no sentinel occurs). -/
theorem c6_fixed_point (ts : List RTTask) (fuel : ℕ) (m : ℤ)
    (h : getFirstFreeSlot ts fuel = some m) :
    m = 1 + interference ts m ∧
      getFirstFreeSlot ts fuel =
        (ffsSeed ts).bind fun seed => iterFix (ffsStep ts) seed fuel := by
  constructor
  · unfold getFirstFreeSlot at h
    cases hl : (getTaskTiming ts).getLast? with
    | none => rw [hl] at h; simp at h
    | some l =>
      rw [hl] at h
      exact (iterFix_fix fuel (ffsStep ts) (1 + l) m h).symm
  · unfold getFirstFreeSlot ffsSeed
    cases (getTaskTiming ts).getLast? with
    | none => rfl
    | some l => rfl

/-- Claim C6, witness for the amended theorem: the single-task system
`sysSingle` yields first free slot 2, a fixed point of the full recurrence. -/
theorem c6_witness :
    ((2 : ℤ) = 1 + interference sysSingle 2) ∧
      getFirstFreeSlot sysSingle 5 =
        (ffsSeed sysSingle).bind fun seed => iterFix (ffsStep sysSingle) seed 5 :=
  c6_fixed_point sysSingle 5 2 (by decide)

/-- Claim C7, counterexample: the input `"(1,2,3))"` carries an unbalanced
closing parenthesis at end of input, yet construction succeeds and returns a
system (popping the empty stack is a no-op and the unanchored regex matches
inside the chunk `"(1,2,3))"`). -/
theorem c7_counterexample :
    parseSystemTasks "(1,2,3))" = some [⟨1, 1, 2, 3⟩] := by decide

/-- Claim C7 as amended: for every input one of whose accumulated depth-0
chunks contains no substring matching `(<int>,<int>,<int>)` — such as the
spec's example `"(1,5),(2,7,7)"` — construction aborts with no partial
system, and so does every input whose unmatched opening parentheses leave a
positive stack depth at end of input; an unbalanced closing parenthesis,
however, is silently absorbed. -/
theorem c7_parse_failures :
    (∀ (s : String) (chunk : List Char),
      chunk ∈ systemChunks s → execTriple chunk = none →
      parseSystemTasks s = none) ∧
    parseSystemTasks "(1,5),(2,7,7)" = none ∧
    (∀ s : String, 0 < finalDepth s → parseSystemTasks s = none) := by
  refine ⟨?_, by decide, fun s h => parseAux_depth s.toList 0 [] [] 1 h⟩
  intro s chunk hmem hfail
  exact parseAux_chunk_fail s.toList 0 [] [] 1 chunk hmem hfail

/-- Claim C7, witness for the amended theorem: the chunk `"(1,5)"` of the
input `"(1,5)"` has no pattern match, so the parse fails; and `"((1,2,3)"`
has positive final depth and fails to parse. -/
theorem c7_witness :
    parseSystemTasks "(1,5)" = none ∧
      0 < finalDepth "((1,2,3)" ∧ parseSystemTasks "((1,2,3)" = none :=
  ⟨c7_parse_failures.1 "(1,5)" ['(', '1', ',', '5', ')'] (by decide) (by decide),
   by decide,
   c7_parse_failures.2.2 "((1,2,3)" (by decide)⟩

/-- Claim C8, counterexample: for the single task `(5,3,3)` (with its actual
response time 5), the computed slack is `-2`: a negative value that is not
`-1` and therefore is reported as-is — the reported slack can be negative. -/
theorem c8_counterexample :
    calculateTaskSlack sysOverrun overTask 5 0 5 = some (-2) ∧
      ((-2 : ℚ) < 0) ∧ ((-2 : ℚ) ≠ -1) := by
  norm_num [calculateTaskSlack, slackCandidates, getSlackExpirations,
    getSlackExpirationsGo, getNextExpiration, getNextExpirationAux,
    getTaskProportion, calculateF, sysOverrun, overTask]

/-- Claim C8 as amended: the computed slack is the minimum over all candidate
expiration instants of `period - F - demand`; only a raw minimum of exactly
`-1` is normalized to 0, every other raw minimum (negative ones included) is
reported unchanged. -/
theorem c8_slack_min (ts : List RTTask) (task : RTTask) (rt : ℚ) (idx fuel : ℕ)
    (a : ℚ) (l : List ℚ) (s : ℚ)
    (hc : slackCandidates ts task rt idx fuel = some (a :: l))
    (hs : calculateTaskSlack ts task rt idx fuel = some s) :
    l.foldl min a ∈ a :: l ∧ (∀ x ∈ a :: l, l.foldl min a ≤ x) ∧
      s = if l.foldl min a = -1 then 0 else l.foldl min a := by
  refine ⟨foldlMin_mem l a, fun x hx => foldlMin_le l a x hx, ?_⟩
  unfold calculateTaskSlack at hs
  rw [hc] at hs
  exact (Option.some_inj.1 hs).symm

/-- Claim C8, witness for the amended theorem, at the `sysOverrun` input whose
sole candidate slack is `-2`. -/
theorem c8_witness :
    ([] : List ℚ).foldl min (-2) ∈ [(-2 : ℚ)] ∧
      (∀ x ∈ [(-2 : ℚ)], ([] : List ℚ).foldl min (-2) ≤ x) ∧
      (-2 : ℚ) = if ([] : List ℚ).foldl min (-2) = -1 then 0
        else ([] : List ℚ).foldl min (-2) :=
  c8_slack_min sysOverrun overTask 5 0 5 (-2) [] (-2)
    (by norm_num [slackCandidates, getSlackExpirations, getSlackExpirationsGo,
      getNextExpiration, getNextExpirationAux, getTaskProportion, calculateF,
      sysOverrun, overTask])
    (by norm_num [calculateTaskSlack, slackCandidates, getSlackExpirations,
      getSlackExpirationsGo, getNextExpiration, getNextExpirationAux,
      getTaskProportion, calculateF, sysOverrun, overTask])

/-- Claim C9: the floor branch of `getTaskProportion` is unreachable — every
flag other than `ceiling` falls through to the identity function, so the raw
proportion `(nextExpiration / period) * executionTime` is returned — and on
`demoTask` at instant 3 this differs from the floor-based proportion the flag
was meant to select. -/
theorem c9_floor_unreachable :
    (∀ (task : RTTask) (e : ℚ) (ft : FloorRoofFunctionType), ft ≠ .ceiling →
      getTaskProportion task e ft =
        (if 0 < task.period then e / (task.period : ℚ) * (task.executionTime : ℚ)
         else 0)) ∧
    getTaskProportion demoTask 3 .floor ≠ floorProportion demoTask 3 := by
  constructor
  · intro task e ft h
    cases ft with
    | ceiling => exact absurd rfl h
    | floor => rfl
    | undefined => rfl
  · norm_num [getTaskProportion, floorProportion, demoTask]

/-- Claim C9, witness: invoking the proportion with the floor flag on
`demoTask` at instant 5 yields the raw (identity) proportion. -/
theorem c9_witness :
    getTaskProportion demoTask 5 .floor =
      (if 0 < demoTask.period then
        (5 : ℚ) / (demoTask.period : ℚ) * (demoTask.executionTime : ℚ)
       else 0) :=
  c9_floor_unreachable.1 demoTask 5 .floor (by decide)

/-- Claim C3, counterexample: in `sysRM` the simulation terminates after 3
cells (the first idle instant), so over one hyperperiod (8) the first task
records only 2 true occupancy bits, not
`executionTime * (hyperperiod / period) = 2 * (8 / 4) = 4`. -/
theorem c3_counterexample :
    (getRMScheduling sysRM 10).map (fun st => trueCount (st.sched 1)) = some 2 ∧
    getHyperperiod sysRM = 8 ∧
    (⟨1, 2, 4, 4⟩ : RTTask).executionTime *
      (getHyperperiod sysRM / (⟨1, 2, 4, 4⟩ : RTTask).period) = 4 ∧
    (2 : ℕ) ≠ 4 := by decide

/-- Claim C3 as amended: in every terminating run of the RM simulation (over
tasks with distinct ids), the number of true occupancy bits recorded for a
task equals the number of occurrences of its id in the execution order — the
number of cells the task actually executed in before the simulation drained,
which generally falls short of `executionTime * (hyperperiod / period)`
because the loop stops at the first idle instant. -/
theorem c3_occupancy_counts (ts : List RTTask) (fuel : ℕ)
    (hnd : (ts.map RTTask.id).Nodup)
    (hterm : (getRMScheduling ts fuel).isSome = true) :
    ∀ t ∈ ts, trueCount ((rmFinal ts fuel).sched t.id) =
      (rmFinal ts fuel).order.count t.id := by
  obtain ⟨st, hst⟩ := Option.isSome_iff_exists.1 hterm
  have hfin : rmFinal ts fuel = st := by rw [rmFinal, hst]; rfl
  rw [hfin]
  exact (rmRun_cellinv ts hnd fuel (initState ts) st (initState_cellinv ts) hst).2.2.2.2

/-- Claim C3, witness for the amended theorem, on the terminating `sysRM`
run. -/
theorem c3_witness :
    trueCount ((rmFinal sysRM 10).sched (1 : ℕ)) =
      (rmFinal sysRM 10).order.count (1 : ℕ) :=
  c3_occupancy_counts sysRM 10 (by decide) (by decide) ⟨1, 2, 4, 4⟩ (by decide)

/-- Claim C10: in every terminating run of the RM simulation over tasks with
distinct ids, all occupancy rows have length equal to the number of simulated
cells, the execution order has that same length, and at every cell exactly one
task's occupancy bit is true — the task whose id the execution order holds at
that cell. -/
theorem c10_exactly_one (ts : List RTTask) (fuel : ℕ)
    (hnd : (ts.map RTTask.id).Nodup)
    (hterm : (getRMScheduling ts fuel).isSome = true) :
    rmInvariantProps ts (rmFinal ts fuel) := by
  obtain ⟨st, hst⟩ := Option.isSome_iff_exists.1 hterm
  have hfin : rmFinal ts fuel = st := by rw [rmFinal, hst]; rfl
  rw [hfin]
  have hinv := rmRun_cellinv ts hnd fuel (initState ts) st (initState_cellinv ts) hst
  exact ⟨hinv.1, hinv.2.1, hinv.2.2.2.1⟩

/-- Claim C10, witness, on the terminating `sysRM` run. -/
theorem c10_witness : rmInvariantProps sysRM (rmFinal sysRM 10) :=
  c10_exactly_one sysRM 10 (by decide) (by decide)


/-- Claim C5, counterexample: `sysLiu` has total utilization exactly 0.83;
`isValidForLiu` answers true because it compares against the 2-decimal
rounding 0.83 of the Liu bound, yet 0.83 is strictly above the exact bound
`2 * (2^(1/2) - 1) = 2(√2 - 1) ≈ 0.8284` the claim names. -/
theorem c5_counterexample :
    isValidForLiu sysLiu ∧
      ¬ ((getFU sysLiu : ℝ) ≤ liuExact (getN sysLiu)) := by
  have hfu : getFU sysLiu = 83 / 100 := by
    norm_num [getFU, RTTask.fu, roundP, defaultDecimals, sysLiu]
  have h0 : (0 : ℝ) ≤ Real.sqrt 2 := Real.sqrt_nonneg 2
  have h2 : Real.sqrt 2 ^ 2 = 2 := Real.sq_sqrt (by norm_num)
  have hub : Real.sqrt 2 < 1.4143 := by nlinarith
  have hlb : (1.4142 : ℝ) < Real.sqrt 2 := by nlinarith
  have hn : (getN sysLiu : ℝ) = 2 := by norm_num [getN, sysLiu]
  have hexact : liuExact (getN sysLiu) = 2 * (Real.sqrt 2 - 1) := by
    rw [liuExact, hn, Real.sqrt_eq_rpow]
  have hfloor : (⌊(2 * (Real.sqrt 2 - 1)) * 10 ^ 2 + 1 / 2⌋ : ℤ) = 83 := by
    rw [Int.floor_eq_iff]
    constructor
    · push_cast
      nlinarith
    · push_cast
      nlinarith
  constructor
  · show ((getFU sysLiu : ℚ) : ℝ) ≤ getLiu sysLiu
    rw [hfu, getLiu, roundR, hexact, hfloor]
    norm_num
  · rw [hfu, hexact]
    intro hle
    rw [show ((83 / 100 : ℚ) : ℝ) = 83 / 100 by norm_num] at hle
    nlinarith

/-- Claim C5 as amended: `isValidForLiu()` returns true iff the total
utilization is at most the Liu bound `n * (2^(1/n) - 1)` rounded to 2
decimals — the code compares against the rounded bound, not the exact one. -/
theorem c5_liu_rounded (ts : List RTTask) (hne : ts ≠ []) :
    isValidForLiu ts ↔
      ((roundP defaultDecimals ((ts.map RTTask.fu).sum) : ℚ) : ℝ) ≤
        roundR 2 ((ts.length : ℝ) * ((2 : ℝ) ^ ((1 : ℝ) / (ts.length : ℝ)) - 1)) :=
  Iff.rfl

/-- Claim C5, witness for the amended theorem, at the one-task system. -/
theorem c5_witness :
    isValidForLiu sysSingle ↔
      ((roundP defaultDecimals ((sysSingle.map RTTask.fu).sum) : ℚ) : ℝ) ≤
        roundR 2 ((sysSingle.length : ℝ) *
          ((2 : ℝ) ^ ((1 : ℝ) / (sysSingle.length : ℝ)) - 1)) :=
  c5_liu_rounded sysSingle (by decide)

end RTSpec
